import Mathlib

/-!
# Verification of the novel-analysis pipeline (shallow embedding)

This file embeds the algorithmic core of the multi-stage narrative-analysis
pipeline in Lean 4 and proves properties of it:

* `ChapterSegmenter` (`src/pipeline/stage1_chapter_analysis/chapter_segmenter.py`)
* `ChunkEngine` (`src/pipeline/stage2_event_extraction/chunk_engine.py`)
* `EventParser` (`src/pipeline/stage2_event_extraction/event_parser.py`)
* `Stage2Coordinator.post_process_events`
  (`src/pipeline/stage2_event_extraction/stage2_coordinator.py`)
* `RhythmAnalyzer.detect_turning_points`
  (`src/pipeline/stage3_global_struct/rhythm_analyzer.py`)

Texts are modelled as `List Char`; Python float arithmetic on chunk sizes and
completeness scores is modelled exactly over `ℚ`, with `int(...)` truncation
of a nonnegative value modelled as natural-number division; fallible
operations return `Except`/`Option`; the external text-understanding service
and the JSON decoder are abstracted as function parameters.
-/

/-! ## Python string primitives -/

/-- Python `str.lower()` on a text modelled as a character list. -/
def pyLower (s : List Char) : List Char := s.map Char.toLower

/-- Python `str.strip()`: drop whitespace from both ends. -/
def pyStrip (s : List Char) : List Char :=
  ((s.dropWhile Char.isWhitespace).reverse.dropWhile Char.isWhitespace).reverse

/-- Python substring test `needle in hay`: some contiguous infix of `hay`
equals `needle` (the empty needle is contained in everything). -/
def pyContains (hay needle : List Char) : Bool :=
  hay.tails.any (fun t => needle.isPrefixOf t)

/-- Python slice `s[a:b]` for nonnegative bounds (empty when `b ≤ a`). -/
def pySlice (s : List Char) (a b : Nat) : List Char :=
  (s.drop a).take (b - a)

/-! ## Data model

The schema modules `src/core/data_models/chapter_schema.py` and
`src/core/data_models/event_schema.py` are not among the sources at hand; the
record shapes below are modelled from the spec's data model (§3), keeping
exactly the fields the embedded code reads and bundling all remaining
`EventUnit` fields into one opaque `payload` component. -/

/-- Modelled from the spec: a core-event descriptor inside a chapter analysis
(§3 `ChapterAnalysis.core_events`): `description` is required, `outcome` and
`impact_value` are optional. A Python `dict.get` returning `None` is `none`;
an empty string is a present-but-falsy outcome. -/
structure CoreEvent where
  description : List Char
  outcome : Option (List Char)
  impact_value : Option Int
  deriving Repr, DecidableEq

/-- Modelled from the spec: a per-chapter analysis record (§3
`ChapterAnalysis`), restricted to the fields the chunking and extraction code
reads. -/
structure ChapterAnalysisResult where
  chapter_id : List Char
  core_events : List CoreEvent
  deriving Repr, DecidableEq

/-- Modelled from the spec: a cross-chapter event unit (§3 `EventUnit`).
Fields `description` and `source_chapters` are the ones the reconciler
touches; `payload` stands for every other field (`event_id`,
`core_elements`, …), which the reconciler copies through untouched. -/
structure EventUnit where
  description : List Char
  source_chapters : List (List Char)
  payload : Nat
  deriving Repr, DecidableEq

/-! ## ChunkEngine (`chunk_engine.py`) -/

/-- Configuration record held by `ChunkEngine` (`chunk_engine.py` lines
24-32). -/
structure ChunkEngine where
  initial_chunk_size : Nat
  min_chunk_size : Nat
  max_chunk_size : Nat
  deriving Repr, DecidableEq

namespace ChunkEngine

/-- Constructor `ChunkEngine.__init__` (`chunk_engine.py` lines 24-32): it
stores the three sizes and logs; it performs no validation, so construction
always succeeds. -/
def init (initial min_size max_size : Nat) : Except Unit ChunkEngine :=
  .ok ⟨initial, min_size, max_size⟩

/-- Modelled from the spec: §4.2 says "`min_chunk_size` must be ≥ 1 and
`max_chunk_size` ≥ `min_chunk_size`, else configuration is rejected". This
definition follows the spec's words, for comparison with `ChunkEngine.init`,
which is the code's behaviour. -/
def initChecked (initial min_size max_size : Nat) : Except Unit ChunkEngine :=
  if min_size < 1 ∨ max_size < min_size then .error ()
  else .ok ⟨initial, min_size, max_size⟩

/-- Incompleteness test applied to the last core event of a chapter
(`chunk_engine.py` line 87): Python `not last_event.get('outcome')` is true
when the outcome is absent or the empty string, and
`last_event.get('impact_value') is None` is true when the impact value is
absent. -/
def eventIncomplete (e : CoreEvent) : Bool :=
  (match e.outcome with
   | none => true
   | some s => s.isEmpty) || e.impact_value == none

/-- Method `ChunkEngine.analyze_chunk_completeness` (`chunk_engine.py` lines
74-93): walk the chunk; for each chapter with a nonempty `core_events`, look
at its last event and record its description when that event is incomplete;
the completeness score is `1 - incomplete_count / chunk_size` (the unclosed
expression at source line 90 is read as the contract the spec adopts in §9). -/
def analyze_chunk_completeness (chunk : List ChapterAnalysisResult) :
    ℚ × List (List Char) :=
  let incomplete_events := chunk.filterMap fun chapter =>
    match chapter.core_events.getLast? with
    | some last_event =>
        if eventIncomplete last_event then some last_event.description else none
    | none => none
  (1 - (incomplete_events.length : ℚ) / (chunk.length : ℚ), incomplete_events)

/-- Chapter-level incompleteness predicate used to state properties of
`analyze_chunk_completeness`: a chapter counts as incomplete exactly when it
has a last core event and that event is incomplete. -/
def chapterIncomplete (chapter : ChapterAnalysisResult) : Bool :=
  match chapter.core_events.getLast? with
  | some last_event => eventIncomplete last_event
  | none => false

/-- Description of a chapter's last core event (empty for a chapter without
core events); used to state properties of `analyze_chunk_completeness`. -/
def lastDescription (chapter : ChapterAnalysisResult) : List Char :=
  match chapter.core_events.getLast? with
  | some last_event => last_event.description
  | none => []

/-- Method `ChunkEngine.calculate_next_chunk_size` (`chunk_engine.py` lines
95-117): shrink towards `min_chunk_size` by the factor 0.8 when completeness
is low, grow towards `max_chunk_size` by the factor 1.2 when completeness is
high, keep the size otherwise, and clamp so the result never exceeds the
remaining chapter count.  Python `int(size * 0.8)` / `int(size * 1.2)`
truncates the (nonnegative) product, modelled exactly as `size * 8 / 10` and
`size * 12 / 10` in natural-number division. -/
def calculate_next_chunk_size (eng : ChunkEngine) (current_size : Nat)
    (completeness : ℚ) (remaining_chapters : Nat) : Nat :=
  let new_size :=
    if completeness < 7/10 then
      max eng.min_chunk_size (current_size * 8 / 10)
    else if completeness > 9/10 then
      min eng.max_chunk_size (current_size * 12 / 10)
    else current_size
  min new_size remaining_chapters

/-- Modelled from the spec: §4.2 step 5 with its literal rounding modes,
`floor` for the shrink branch and `ceil` for the grow branch. This definition
follows the spec's words, for comparison with `calculate_next_chunk_size`,
which is the code's behaviour. -/
def nextChunkSizeSpec (eng : ChunkEngine) (current_size : Nat)
    (completeness : ℚ) (remaining_chapters : Nat) : Nat :=
  let new_size :=
    if completeness < 7/10 then
      max eng.min_chunk_size ⌊(current_size : ℚ) * (8/10)⌋₊
    else if completeness > 9/10 then
      min eng.max_chunk_size ⌈(current_size : ℚ) * (12/10)⌉₊
    else current_size
  min new_size remaining_chapters

/-- Iterative loop of `ChunkEngine.process_all_chapters` (`chunk_engine.py`
lines 149-168), instrumented: besides the emitted chunks it returns, for each
call of `calculate_next_chunk_size`, the pair
`(computed size, remaining chapter count at that moment)`.  The Python
`while` loop is driven by a fuel argument; each iteration consumes one unit
and callers pass the chapter count, which suffices because every iteration
that continues removes at least one chapter. -/
def processLoop (eng : ChunkEngine) :
    Nat → Nat → List ChapterAnalysisResult →
    List (List ChapterAnalysisResult) × List (Nat × Nat)
  | 0, _, _ => ([], [])
  | fuel + 1, current_chunk_size, remaining_chapters =>
    if remaining_chapters.isEmpty then ([], [])
    else
      let chunk := remaining_chapters.take current_chunk_size
      let rest := remaining_chapters.drop current_chunk_size
      let completeness := (analyze_chunk_completeness chunk).1
      if rest.isEmpty then ([chunk], [])
      else
        let next_size := eng.calculate_next_chunk_size
          current_chunk_size completeness rest.length
        let tail := processLoop eng fuel next_size rest
        (chunk :: tail.1, (next_size, rest.length) :: tail.2)

/-- Method `ChunkEngine.process_all_chapters` (`chunk_engine.py` lines
138-172) restricted to its loop (chapter loading from disk is external
I/O): start from `initial_chunk_size` with fuel equal to the chapter
count. -/
def process_all_chapters (eng : ChunkEngine)
    (all_chapters : List ChapterAnalysisResult) :
    List (List ChapterAnalysisResult) × List (Nat × Nat) :=
  processLoop eng all_chapters.length eng.initial_chunk_size all_chapters

end ChunkEngine

/-! ## ChapterSegmenter (`chapter_segmenter.py`)

The regular-expression phase (`segment`, lines 50-60) collects all heading
matches as `(position, matched title)` pairs and sorts them by position; the
`re` library is external, so the sorted match list is taken as a parameter
here and the embedding covers the extraction loop (lines 62-95). -/

namespace ChapterSegmenter

/-- Chapter-extraction loop of `ChapterSegmenter.segment`
(`chapter_segmenter.py` lines 68-93) after the front-matter decision:
`start` is the current `start_index`, `k` the next ordinal to assign, and
each step's content runs from `start` to the next match's position (to end
of text for the last match). -/
def buildChapters (text : List Char) :
    Nat → Nat → List (Nat × List Char) → List (Nat × List Char × List Char)
  | _, _, [] => []
  | start, k, (_, title) :: rest =>
    let endIdx := match rest with
      | (next, _) :: _ => next
      | [] => text.length
    (k, pyStrip title, pyStrip (pySlice text start endIdx)) ::
      buildChapters text endIdx (k + 1) rest

/-- Method `ChapterSegmenter.segment` (`chapter_segmenter.py` lines 36-95)
over an already-sorted match list: whitespace-only text yields `[]`; no
matches yield a single synthetic chapter titled 全文 ("Full Text"); otherwise
the loop runs, and when the first match does not start at position 0 the
iteration for that match is skipped entirely (source lines 74-77), with
`start_index` set to its position. -/
def segment (text : List Char) (matchList : List (Nat × List Char)) :
    List (Nat × List Char × List Char) :=
  if (pyStrip text).isEmpty then []
  else
    match matchList with
    | [] => [(1, "全文".toList, text)]
    | (pos, title) :: rest =>
      if 0 < pos then buildChapters text pos 1 rest
      else buildChapters text 0 1 ((pos, title) :: rest)

/-- Chapter list the claim describes: ordinals assigned sequentially from
`k`, each chapter's content running from the start of its own title to the
start of the next title (the last one to end of text), whitespace-stripped
as the code strips it. -/
def expectedChapters (text : List Char) :
    Nat → List (Nat × List Char) → List (Nat × List Char × List Char)
  | _, [] => []
  | k, (pos, title) :: rest =>
    let endIdx := match rest with
      | (next, _) :: _ => next
      | [] => text.length
    (k, pyStrip title, pyStrip (pySlice text pos endIdx)) ::
      expectedChapters text (k + 1) rest

end ChapterSegmenter

/-! ## EventParser (`event_parser.py`)

The external pieces are abstracted as parameters: the text-understanding
service call `self.ai_adapter.generate(prompt)` becomes an
`Except Unit (List Char)` value (`.error` models a raised exception), and the
standard-library JSON decode plus `EventUnit(**event)` validation of one
response string becomes a function into `LoadOutcome`. -/

/-- Raw event record decoded from a response, before provenance inference:
`source_chapters` is `none` when the key is missing from the decoded dict. -/
structure RawEvent where
  description : List Char
  source_chapters : Option (List (List Char))
  payload : Nat
  deriving Repr, DecidableEq

/-- Outcome of `json.loads(response)` followed by the conversion of the
decoded value into raw event records (`event_parser.py` lines 59-68):
`ok events` when decoding and conversion succeed, `decodeErr` when
`json.loads` raises `json.JSONDecodeError`, and `exn` when decoding succeeds
but the conversion raises some other exception (for instance a validation
error in `EventUnit(**event)`). -/
inductive LoadOutcome where
  | ok (events : List RawEvent)
  | decodeErr
  | exn

/-- Method `EventParser.find_source_chapters` (`event_parser.py` lines
86-104): attribute the event to every chapter of the chunk having at least
one core event whose lowercased description contains the event's lowercased
description as a substring; the inner `break` makes one matching core event
per chapter sufficient, so each chapter contributes its id at most once. -/
def find_source_chapters (event_desc : List Char)
    (chunk : List ChapterAnalysisResult) : List (List Char) :=
  let lowered := pyLower event_desc
  chunk.filterMap fun chapter =>
    if chapter.core_events.any
        (fun e => pyContains (pyLower e.description) lowered)
    then some chapter.chapter_id else none

/-- Conversion of one raw event record into an `EventUnit`
(`event_parser.py` lines 63-68): when the record carries no explicit
`source_chapters`, provenance is inferred with `find_source_chapters`. -/
def rawToEventUnit (chunk : List ChapterAnalysisResult) (r : RawEvent) :
    EventUnit :=
  { description := r.description
    source_chapters :=
      r.source_chapters.getD (find_source_chapters r.description chunk)
    payload := r.payload }

/-- Index of the first `'{'` in a text, Python `response.find('{')` with
`none` for `-1`. -/
def firstBraceIdx (s : List Char) : Option Nat :=
  s.findIdx? (fun c => c == '{')

/-- Index of the last `'}'` in a text, Python `response.rfind('}')` with
`none` for `-1`. -/
def lastBraceIdx (s : List Char) : Option Nat :=
  (s.reverse.findIdx? (fun c => c == '}')).map (fun j => s.length - 1 - j)

/-- Fallback span extraction of `EventParser.parse_response`
(`event_parser.py` lines 75-78): `response[start:end + 1]` for
`start = find('{')` and `end = rfind('}')` when both exist. -/
def extractBraces (s : List Char) : Option (List Char) :=
  match firstBraceIdx s, lastBraceIdx s with
  | some i, some j => some (pySlice s i (j + 1))
  | _, _ => none

/-- Method `EventParser.parse_response` (`event_parser.py` lines 49-84).
Fuel models Python's recursion depth limit: the call made with no fuel left
stands for the frame in which `RecursionError` is raised, and the caller's
`except Exception` handler turns any error from the recursive call into
`[]`.  A `.error` result models an exception escaping `parse_response`
itself (only possible from the conversion in the direct-parse branch, whose
exceptions the surrounding `try` does not catch). -/
def parse_response (load : List Char → LoadOutcome)
    (chunk : List ChapterAnalysisResult) :
    Nat → List Char → Except Unit (List EventUnit)
  | 0, _ => .error ()
  | fuel + 1, response =>
    match load response with
    | .ok events => .ok (events.map (rawToEventUnit chunk))
    | .exn => .error ()
    | .decodeErr =>
      match extractBraces response with
      | none => .ok []
      | some sub =>
        match parse_response load chunk fuel sub with
        | .ok r => .ok r
        | .error _ => .ok []

/-- Method `EventParser.extract_events` (`event_parser.py` lines 106-136),
with the prompt construction elided (the abstract `generate` outcome already
stands for the service's answer to it): a failed service call or any
exception escaping `parse_response` is caught by the surrounding
`except Exception` and yields `[]`. -/
def extract_events (load : List Char → LoadOutcome)
    (chunk : List ChapterAnalysisResult) (generate : Except Unit (List Char))
    (fuel : Nat) : List EventUnit :=
  match generate with
  | .error _ => []
  | .ok response =>
    match parse_response load chunk fuel response with
    | .ok r => r
    | .error _ => []

/-! ## Stage2Coordinator.post_process_events (`stage2_coordinator.py`) -/

/-- Python `list(set(a + b))`: the elements of the union of the two chapter
sets.  A Python `set` fixes no element order, so one canonical
representative is used, with properties stated at the level of the
underlying finite set. -/
def pySetUnion (a b : List (List Char)) : List (List Char) :=
  (a ++ b).dedup

/-- One step of the deduplication loop in
`Stage2Coordinator.post_process_events` (`stage2_coordinator.py` lines
102-110), acting on the insertion-ordered association list that models the
Python dict `unique_events`: on a key collision the stored record keeps all
its fields except `source_chapters`, which becomes the union of the stored
and incoming chapter sets; otherwise the event is inserted at the end under
its lowercased description (the mangled `else` at source lines 107-110 is
read as the merge-or-insert contract the spec adopts in §9). -/
def postStep (acc : List (List Char × EventUnit)) (event : EventUnit) :
    List (List Char × EventUnit) :=
  let key := pyLower event.description
  if acc.any (fun p => p.1 == key) then
    acc.map fun p =>
      if p.1 == key then
        (p.1, { p.2 with
                source_chapters :=
                  pySetUnion p.2.source_chapters event.source_chapters })
      else p
  else acc ++ [(key, event)]

/-- Method `Stage2Coordinator.post_process_events` (`stage2_coordinator.py`
lines 94-114): fold the events through the dict in order, then return the
dict's values in insertion order. -/
def post_process_events (events : List EventUnit) : List EventUnit :=
  (events.foldl postStep []).map Prod.snd

/-- First-occurrence deduplication of a key list: the key order Python's
insertion-ordered dict keeps. -/
def firstOccur : List (List Char) → List (List Char)
  | [] => []
  | k :: ks => k :: (firstOccur ks).filter (fun k2 => k2 != k)

/-! ## RhythmAnalyzer.detect_turning_points (`rhythm_analyzer.py`)

`ConflictScorer.calculate_intensity` lives in `src/core/quantification`,
which is not among the sources at hand; events are therefore taken together
with their already-computed intensity, as `(event_id, intensity)` pairs. -/

/-- Turning-point record (`rhythm_analyzer.py` lines 24-28). -/
structure TurningPoint where
  position : List Char
  event_id : List Char
  intensity : Int
  deriving Repr, DecidableEq

/-- Rendering of the 1-based position string `f"{i + 1}/{len(events)}"`. -/
def posRender (i total : Nat) : List Char :=
  (Nat.repr i).toList ++ '/' :: (Nat.repr total).toList

/-- Method `RhythmAnalyzer.detect_turning_points` (`rhythm_analyzer.py`
lines 12-30): scan the interior indices `1 … n-2`; an index is reported when
its intensity strictly exceeds both neighbours and meets the configured
threshold (the configuration default is 7). -/
def detect_turning_points (threshold : Int)
    (events : List (List Char × Int)) : List TurningPoint :=
  let intensities := events.map Prod.snd
  (List.range' 1 (intensities.length - 1 - 1)).filterMap fun i =>
    if intensities.getD i 0 > intensities.getD (i - 1) 0 ∧
        intensities.getD i 0 > intensities.getD (i + 1) 0 ∧
        intensities.getD i 0 ≥ threshold then
      some ⟨posRender (i + 1) events.length,
            (events.getD i ([], 0)).1, intensities.getD i 0⟩
    else none

/-! ## Helper lemmas -/

/-- Natural-number division `s * a / b` is the floor of the exact rational
product `s * (a / b)`. -/
theorem natMulDiv_eq_floor (s a b : Nat) :
    s * a / b = ⌊(s : ℚ) * ((a : ℚ) / (b : ℚ))⌋₊ := by
  have h : (s : ℚ) * ((a : ℚ) / (b : ℚ)) = ((s * a : ℕ) : ℚ) / (b : ℚ) := by
    push_cast
    ring
  rw [h, Nat.floor_div_eq_div]

/-! ## C2: next chunk size -/

/-- C2 (corrected claim): for every configuration, current size, completeness
value and remaining-chapter count, the next chunk size equals
`max(min_chunk_size, floor(s * 0.8))` when completeness is below 0.7,
`min(max_chunk_size, floor(s * 1.2))` (floor, i.e. Python `int` truncation,
not the ceiling the original claim states) when completeness is above 0.9,
and `s` otherwise, in every case further clamped to the remaining-chapter
count. -/
theorem calculate_next_chunk_size_eq_floor_formula (eng : ChunkEngine)
    (s : Nat) (c : ℚ) (r : Nat) :
    eng.calculate_next_chunk_size s c r =
      min (if c < 7/10 then max eng.min_chunk_size ⌊(s : ℚ) * (8/10)⌋₊
           else if c > 9/10 then min eng.max_chunk_size ⌊(s : ℚ) * (12/10)⌋₊
           else s) r := by
  have h8 : s * 8 / 10 = ⌊(s : ℚ) * (8/10)⌋₊ := by
    simpa using natMulDiv_eq_floor s 8 10
  have h12 : s * 12 / 10 = ⌊(s : ℚ) * (12/10)⌋₊ := by
    simpa using natMulDiv_eq_floor s 12 10
  unfold ChunkEngine.calculate_next_chunk_size
  rw [h8, h12]

/-- C2 counterexample to the claim as stated: with the default configuration,
current size 11, completeness 0.95 and 100 remaining chapters, the code
computes `int(11 * 1.2) = 13` while the claimed formula
`min(max_chunk_size, ceil(11 * 1.2)) = 14`; the two sides differ. -/
theorem calculate_next_chunk_size_ne_ceil_formula :
    ChunkEngine.calculate_next_chunk_size ⟨50, 10, 100⟩ 11 (19/20) 100 ≠
      ChunkEngine.nextChunkSizeSpec ⟨50, 10, 100⟩ 11 (19/20) 100 := by
  have hcode : ChunkEngine.calculate_next_chunk_size ⟨50, 10, 100⟩ 11 (19/20) 100 = 13 := by
    norm_num [ChunkEngine.calculate_next_chunk_size]
  have hceil : (⌈(11 : ℚ) * (12/10)⌉₊ : Nat) = 14 := by
    rw [Nat.ceil_eq_iff (by norm_num)]
    norm_num
  have hspec : ChunkEngine.nextChunkSizeSpec ⟨50, 10, 100⟩ 11 (19/20) 100 = 14 := by
    rw [ChunkEngine.nextChunkSizeSpec]
    norm_num
    rw [Nat.ceil_eq_iff (by norm_num)]
    norm_num
  rw [hcode, hspec]
  norm_num

/-! ## C9: constructor validation -/

/-- C9 (corrected claim): the constructor performs no validation at all —
for every configuration, including those with `min_chunk_size < 1` or
`max_chunk_size < min_chunk_size`, construction succeeds and just stores the
three sizes; the spec-mandated check (modelled by `initChecked`) would reject
exactly the configurations with `min_chunk_size < 1` or
`max_chunk_size < min_chunk_size`. -/
theorem init_never_rejects (initial min_size max_size : Nat) :
    ChunkEngine.init initial min_size max_size =
      .ok ⟨initial, min_size, max_size⟩ ∧
    (ChunkEngine.initChecked initial min_size max_size = .error () ↔
      min_size < 1 ∨ max_size < min_size) := by
  refine ⟨rfl, ?_⟩
  unfold ChunkEngine.initChecked
  split
  · simp_all
  · simp_all

/-- C9 witness: instantiation of `init_never_rejects` at a concrete
configuration. -/
theorem init_never_rejects_witness :
    ChunkEngine.init 50 0 100 = .ok ⟨50, 0, 100⟩ ∧
    (ChunkEngine.initChecked 50 0 100 = .error () ↔ 0 < 1 ∨ 100 < 0) :=
  init_never_rejects 50 0 100

/-- C9 counterexample to the claim as stated: the configuration with
`min_chunk_size = 0 < 1` is accepted by the code's constructor, while the
spec-mandated check rejects it. -/
theorem init_accepts_invalid_config :
    ChunkEngine.init 50 0 100 = .ok ⟨50, 0, 100⟩ ∧
    ChunkEngine.initChecked 50 0 100 = .error () := by
  exact ⟨rfl, rfl⟩

/-! ## C3 and C10: chunk completeness -/

/-- The incomplete-event list built inside `analyze_chunk_completeness` is
the last-event description of exactly the incomplete chapters, in chunk
order. -/
theorem analyze_incomplete_eq_filter (chunk : List ChapterAnalysisResult) :
    (chunk.filterMap fun chapter =>
        match chapter.core_events.getLast? with
        | some last_event =>
            if ChunkEngine.eventIncomplete last_event then
              some last_event.description
            else none
        | none => none) =
      (chunk.filter ChunkEngine.chapterIncomplete).map
        ChunkEngine.lastDescription := by
  induction chunk with
  | nil => rfl
  | cons ch rest ih =>
    simp only [List.filterMap_cons, List.filter_cons]
    rcases hl : ch.core_events.getLast? with _ | last_event
    · simpa [ChunkEngine.chapterIncomplete, hl] using ih
    · rcases hinc : ChunkEngine.eventIncomplete last_event
      · simpa [ChunkEngine.chapterIncomplete, hl, hinc] using ih
      · simp [ChunkEngine.chapterIncomplete, ChunkEngine.lastDescription,
          hl, hinc, ih]

/-- C3 (as claimed): for every nonempty chunk, `analyze_chunk_completeness`
returns the completeness value `1 - incomplete_count / chunk_size`, a value
in `[0, 1]`, together with the descriptions of exactly those chapters whose
last core event lacks a (truthy) outcome or lacks an impact value. -/
theorem analyze_chunk_completeness_spec (chunk : List ChapterAnalysisResult)
    (h : chunk ≠ []) :
    (ChunkEngine.analyze_chunk_completeness chunk).1 =
      1 - ((ChunkEngine.analyze_chunk_completeness chunk).2.length : ℚ) /
        (chunk.length : ℚ) ∧
    0 ≤ (ChunkEngine.analyze_chunk_completeness chunk).1 ∧
    (ChunkEngine.analyze_chunk_completeness chunk).1 ≤ 1 ∧
    (ChunkEngine.analyze_chunk_completeness chunk).2 =
      (chunk.filter ChunkEngine.chapterIncomplete).map
        ChunkEngine.lastDescription := by
  have hfm := analyze_incomplete_eq_filter chunk
  have h2 : (ChunkEngine.analyze_chunk_completeness chunk).2 =
      (chunk.filter ChunkEngine.chapterIncomplete).map
        ChunkEngine.lastDescription := by
    rw [ChunkEngine.analyze_chunk_completeness]
    exact hfm
  have hlen : (ChunkEngine.analyze_chunk_completeness chunk).2.length ≤
      chunk.length := by
    rw [h2, List.length_map]
    exact chunk.length_filter_le _
  have hpos : (0 : ℚ) < (chunk.length : ℚ) := by
    exact_mod_cast List.length_pos.mpr h
  have h1 : (ChunkEngine.analyze_chunk_completeness chunk).1 =
      1 - ((ChunkEngine.analyze_chunk_completeness chunk).2.length : ℚ) /
        (chunk.length : ℚ) := by
    rw [ChunkEngine.analyze_chunk_completeness]
  refine ⟨h1, ?_, ?_, h2⟩
  · rw [h1]
    have : ((ChunkEngine.analyze_chunk_completeness chunk).2.length : ℚ) /
        (chunk.length : ℚ) ≤ 1 := by
      rw [div_le_one hpos]
      exact_mod_cast hlen
    linarith
  · rw [h1]
    have : (0 : ℚ) ≤
        ((ChunkEngine.analyze_chunk_completeness chunk).2.length : ℚ) /
          (chunk.length : ℚ) :=
      div_nonneg (by positivity) (le_of_lt hpos)
    linarith

/-- C3 witness: instantiation at a one-chapter chunk whose only core event
lacks an outcome. -/
theorem analyze_chunk_completeness_spec_witness :
    (ChunkEngine.analyze_chunk_completeness
        [⟨['a'], [⟨['x'], none, some 3⟩]⟩]).1 =
      1 - ((ChunkEngine.analyze_chunk_completeness
        [⟨['a'], [⟨['x'], none, some 3⟩]⟩]).2.length : ℚ) /
        (([⟨['a'], [⟨['x'], none, some 3⟩]⟩] :
          List ChapterAnalysisResult).length : ℚ) ∧
    0 ≤ (ChunkEngine.analyze_chunk_completeness
        [⟨['a'], [⟨['x'], none, some 3⟩]⟩]).1 ∧
    (ChunkEngine.analyze_chunk_completeness
        [⟨['a'], [⟨['x'], none, some 3⟩]⟩]).1 ≤ 1 ∧
    (ChunkEngine.analyze_chunk_completeness
        [⟨['a'], [⟨['x'], none, some 3⟩]⟩]).2 =
      (([⟨['a'], [⟨['x'], none, some 3⟩]⟩] :
          List ChapterAnalysisResult).filter
        ChunkEngine.chapterIncomplete).map ChunkEngine.lastDescription :=
  analyze_chunk_completeness_spec [⟨['a'], [⟨['x'], none, some 3⟩]⟩]
    (by simp)

/-- C10 (as claimed): a chapter without core events is never counted as
incomplete and contributes no description to the carry-forward list, and a
nonempty chunk consisting only of such chapters has completeness 1 and an
empty carry-forward list. -/
theorem analyze_chunk_completeness_no_events :
    (∀ ch chunk, ch.core_events = [] →
      (ChunkEngine.analyze_chunk_completeness (ch :: chunk)).2 =
        (ChunkEngine.analyze_chunk_completeness chunk).2) ∧
    (∀ chunk : List ChapterAnalysisResult, chunk ≠ [] →
      (∀ ch ∈ chunk, ch.core_events = []) →
      ChunkEngine.analyze_chunk_completeness chunk = (1, [])) := by
  constructor
  · intro ch chunk hch
    simp [ChunkEngine.analyze_chunk_completeness, List.filterMap_cons, hch]
  · intro chunk hne hall
    have hdesc : (chunk.filterMap fun chapter =>
        match chapter.core_events.getLast? with
        | some last_event =>
            if ChunkEngine.eventIncomplete last_event then
              some last_event.description
            else none
        | none => none) = [] := by
      rw [List.filterMap_eq_nil_iff]
      intro ch hch
      simp [hall ch hch]
    have hpos : (0 : ℚ) < (chunk.length : ℚ) := by
      exact_mod_cast List.length_pos.mpr hne
    rw [ChunkEngine.analyze_chunk_completeness]
    simp only [hdesc]
    norm_num

/-- C10 witness: instantiation at a one-chapter chunk with no core
events. -/
theorem analyze_chunk_completeness_no_events_witness :
    (ChunkEngine.analyze_chunk_completeness [⟨['a'], []⟩, ⟨['b'], []⟩]).2 =
      (ChunkEngine.analyze_chunk_completeness [⟨['b'], []⟩]).2 ∧
    ChunkEngine.analyze_chunk_completeness [⟨['a'], []⟩, ⟨['b'], []⟩] =
      (1, []) :=
  ⟨analyze_chunk_completeness_no_events.1 ⟨['a'], []⟩ [⟨['b'], []⟩] rfl,
   analyze_chunk_completeness_no_events.2 [⟨['a'], []⟩, ⟨['b'], []⟩]
     (by simp) (by simp)⟩

/-! ## C5: chunk-size invariant of the processing loop -/

/-- The pre-clamp value computed by `calculate_next_chunk_size` never
exceeds `max_chunk_size` when the incoming size respects it, and is at least
`min_chunk_size` whenever the incoming size is; the published value is the
pre-clamp value capped by the remaining-chapter count. -/
theorem processLoop_size_bounds (eng : ChunkEngine)
    (hmm : eng.min_chunk_size ≤ eng.max_chunk_size) :
    ∀ (fuel size : Nat) (remaining : List ChapterAnalysisResult),
      size ≤ eng.max_chunk_size →
      (eng.min_chunk_size ≤ size ∨ remaining.length ≤ size) →
      ∀ p ∈ (ChunkEngine.processLoop eng fuel size remaining).2,
        min eng.min_chunk_size p.2 ≤ p.1 ∧
        p.1 ≤ eng.max_chunk_size ∧ p.1 ≤ p.2 := by
  intro fuel
  induction fuel with
  | zero => intro size remaining _ _ p hp; simp [ChunkEngine.processLoop] at hp
  | succ n ih =>
    intro size remaining hsmax hslow p hp
    rw [ChunkEngine.processLoop] at hp
    by_cases hrem : remaining.isEmpty
    · simp [hrem] at hp
    · simp only [hrem, if_false, Bool.false_eq_true] at hp
      by_cases hrest : (remaining.drop size).isEmpty
      · simp [hrest] at hp
      · simp only [hrest, if_false, Bool.false_eq_true, List.mem_cons] at hp
        have hsize_min : eng.min_chunk_size ≤ size := by
          rcases hslow with h | h
          · exact h
          · exfalso
            have : remaining.drop size = [] := List.drop_eq_nil_of_le h
            rw [this] at hrest
            simp at hrest
        set c := (ChunkEngine.analyze_chunk_completeness
          (remaining.take size)).1 with hc
        set v : Nat :=
          (if c < 7/10 then
            max eng.min_chunk_size (size * 8 / 10)
          else if c > 9/10 then
            min eng.max_chunk_size (size * 12 / 10)
          else size) with hv
        have hnext : eng.calculate_next_chunk_size size c
            (remaining.drop size).length =
            min v (remaining.drop size).length := rfl
        have hvmin : eng.min_chunk_size ≤ v := by
          rw [hv]
          split
          · exact le_max_left _ _
          · split
            · refine le_min hmm ?_
              calc eng.min_chunk_size ≤ size := hsize_min
                _ = size * 10 / 10 := by omega
                _ ≤ size * 12 / 10 := by
                    exact Nat.div_le_div_right (by omega)
            · exact hsize_min
        have hvmax : v ≤ eng.max_chunk_size := by
          rw [hv]
          split
          · refine max_le hmm ?_
            calc size * 8 / 10 ≤ size * 10 / 10 :=
                  Nat.div_le_div_right (by omega)
              _ = size := by omega
              _ ≤ eng.max_chunk_size := hsmax
          · split
            · exact min_le_left _ _
            · exact hsmax
        rcases hp with hp | hp
        · subst hp
          refine ⟨?_, ?_, ?_⟩
          · simp only [hnext]
            exact le_min (min_le_of_left_le hvmin) (min_le_right _ _)
          · simp only [hnext]
            exact le_trans (min_le_left _ _) hvmax
          · simp only [hnext]
            exact min_le_right _ _
        · refine ih _ _ ?_ ?_ p hp
          · rw [hnext]
            exact le_trans (min_le_left _ _) hvmax
          · rw [hnext]
            rcases le_total v (remaining.drop size).length with h | h
            · left
              rw [min_eq_left h]
              exact hvmin
            · right
              rw [min_eq_right h]

/-- C5 (corrected claim): for every chapter sequence and every configuration
with `min_chunk_size ≤ initial_chunk_size ≤ max_chunk_size`, each chunk size
computed during the iterative loop never exceeds `max_chunk_size`, never
exceeds the remaining chapter count, and is at least
`min(min_chunk_size, remaining count)` — it drops below `min_chunk_size`
exactly when the clamp to a remaining count smaller than `min_chunk_size`
forces it to. -/
theorem process_all_chapters_size_invariant (eng : ChunkEngine)
    (chapters : List ChapterAnalysisResult)
    (hlo : eng.min_chunk_size ≤ eng.initial_chunk_size)
    (hhi : eng.initial_chunk_size ≤ eng.max_chunk_size) :
    ∀ p ∈ (eng.process_all_chapters chapters).2,
      min eng.min_chunk_size p.2 ≤ p.1 ∧
      p.1 ≤ eng.max_chunk_size ∧ p.1 ≤ p.2 :=
  processLoop_size_bounds eng (le_trans hlo hhi) chapters.length
    eng.initial_chunk_size chapters hhi (Or.inl hlo)

/-- Concrete run used against C5: configuration
`(initial, min, max) = (2, 2, 3)` on three chapters without core events.
The first chunk takes two chapters with completeness 1, the grow branch
yields 2, and the clamp to the single remaining chapter publishes size 1,
below `min_chunk_size = 2`. -/
theorem processLoop_clamp_example :
    (ChunkEngine.process_all_chapters ⟨2, 2, 3⟩
      [⟨['a'], []⟩, ⟨['b'], []⟩, ⟨['c'], []⟩]).2 = [(1, 1)] := by
  norm_num [ChunkEngine.process_all_chapters, ChunkEngine.processLoop,
    ChunkEngine.analyze_chunk_completeness,
    ChunkEngine.calculate_next_chunk_size]

/-- C5 counterexample to the claim as stated: in the run of
`processLoop_clamp_example` the computed size 1 lies outside
`[min_chunk_size, max_chunk_size] = [2, 3]`, so it is not true that every
computed size stays in that interval. -/
theorem process_all_chapters_size_below_min :
    ¬ (∀ p ∈ (ChunkEngine.process_all_chapters ⟨2, 2, 3⟩
          [⟨['a'], []⟩, ⟨['b'], []⟩, ⟨['c'], []⟩]).2,
        (⟨2, 2, 3⟩ : ChunkEngine).min_chunk_size ≤ p.1 ∧
        p.1 ≤ (⟨2, 2, 3⟩ : ChunkEngine).max_chunk_size) := by
  intro h
  have hmem : ((1, 1) : Nat × Nat) ∈
      (ChunkEngine.process_all_chapters ⟨2, 2, 3⟩
        [⟨['a'], []⟩, ⟨['b'], []⟩, ⟨['c'], []⟩]).2 := by
    rw [processLoop_clamp_example]
    exact List.mem_singleton.mpr rfl
  have := (h _ hmem).1
  simp at this

/-- C5 witness: instantiation of the corrected invariant at the concrete run
of `processLoop_clamp_example`; the published size 1 meets the corrected
bound `min(min_chunk_size, remaining) = min 2 1 = 1`. -/
theorem process_all_chapters_size_invariant_witness :
    min (⟨2, 2, 3⟩ : ChunkEngine).min_chunk_size 1 ≤ 1 ∧
    1 ≤ (⟨2, 2, 3⟩ : ChunkEngine).max_chunk_size ∧ 1 ≤ 1 := by
  have := process_all_chapters_size_invariant ⟨2, 2, 3⟩
    [⟨['a'], []⟩, ⟨['b'], []⟩, ⟨['c'], []⟩] (by decide) (by decide)
    (1, 1)
    (by rw [processLoop_clamp_example]; exact List.mem_singleton.mpr rfl)
  exact this

/-! ## C4: chapter segmentation -/

/-- Helper: when the loop's running `start_index` coincides with the
position of the next match, the extraction loop produces exactly the
own-title-to-next-title chapters. -/
theorem buildChapters_aligned (text : List Char) :
    ∀ (rest : List (Nat × List Char)) (k pos : Nat) (title : List Char),
      ChapterSegmenter.buildChapters text pos k ((pos, title) :: rest) =
        ChapterSegmenter.expectedChapters text k ((pos, title) :: rest) := by
  intro rest
  induction rest with
  | nil => intro k pos title; rfl
  | cons hd r2 ih =>
    intro k pos title
    rcases hd with ⟨p2, t2⟩
    simp only [ChapterSegmenter.buildChapters,
      ChapterSegmenter.expectedChapters]
    exact congrArg _ (ih (k + 1) p2 t2)

/-- Helper: the extraction loop emits one chapter per remaining match. -/
theorem buildChapters_length (text : List Char) :
    ∀ (rest : List (Nat × List Char)) (k start : Nat),
      (ChapterSegmenter.buildChapters text start k rest).length =
        rest.length := by
  intro rest
  induction rest with
  | nil => intro k start; rfl
  | cons hd r2 ih =>
    intro k start
    rcases hd with ⟨p2, t2⟩
    simp only [ChapterSegmenter.buildChapters, List.length_cons]
    rw [ih]

/-- Helper: the expected chapter list assigns ordinals sequentially. -/
theorem expectedChapters_ordinals (text : List Char) :
    ∀ (ms : List (Nat × List Char)) (k : Nat),
      (ChapterSegmenter.expectedChapters text k ms).map Prod.fst =
        List.range' k ms.length := by
  intro ms
  induction ms with
  | nil => intro k; rfl
  | cons hd rest ih =>
    intro k
    rcases hd with ⟨p, t⟩
    simp only [ChapterSegmenter.expectedChapters, List.map_cons,
      List.length_cons, List.range'_succ]
    rw [ih]

/-- C4 (corrected claim): for every non-whitespace text and every sorted
nonempty match list, segmentation behaves as follows.  When the first match
starts at position 0, exactly `N` chapters are returned with ordinals
`1..N`, each chapter's content being the whitespace-stripped span of the
text from the start of its own title to the start of the next title (the
last chapter's content running to end of text).  When the first match starts
after position 0, the front-matter skip consumes the first match's loop
iteration as well: only `N - 1` chapters are returned, the first of them
carrying the second match's title while its content starts at the first
match's position and runs to the third match's position (or to end of text),
the remaining chapters following the own-title-to-next-title rule with
ordinals continuing from 2. -/
theorem segment_spec (text : List Char) :
    (∀ (t : List Char) (rest : List (Nat × List Char)),
      (pyStrip text).isEmpty = false →
      ChapterSegmenter.segment text ((0, t) :: rest) =
        ChapterSegmenter.expectedChapters text 1 ((0, t) :: rest) ∧
      (ChapterSegmenter.segment text ((0, t) :: rest)).map Prod.fst =
        List.range' 1 ((0, t) :: rest).length) ∧
    (∀ (p : Nat) (t : List Char) (rest : List (Nat × List Char)),
      (pyStrip text).isEmpty = false → 0 < p →
      (ChapterSegmenter.segment text ((p, t) :: rest)).length = rest.length ∧
      ChapterSegmenter.segment text ((p, t) :: rest) =
        (match rest with
         | [] => []
         | (_, t2) :: r2 =>
           (1, pyStrip t2,
             pyStrip (pySlice text p (match r2 with
               | (p3, _) :: _ => p3
               | [] => text.length))) ::
             ChapterSegmenter.expectedChapters text 2 r2)) := by
  constructor
  · intro t rest hne
    have hseg : ChapterSegmenter.segment text ((0, t) :: rest) =
        ChapterSegmenter.expectedChapters text 1 ((0, t) :: rest) := by
      rw [ChapterSegmenter.segment, hne]
      simp only [Bool.false_eq_true, if_false, lt_irrefl, if_neg]
      exact buildChapters_aligned text rest 1 0 t
    refine ⟨hseg, ?_⟩
    rw [hseg, expectedChapters_ordinals]
  · intro p t rest hne hp
    have hseg : ChapterSegmenter.segment text ((p, t) :: rest) =
        ChapterSegmenter.buildChapters text p 1 rest := by
      rw [ChapterSegmenter.segment, hne]
      simp only [Bool.false_eq_true, if_false, hp, if_pos]
    constructor
    · rw [hseg, buildChapters_length]
    · rw [hseg]
      rcases rest with _ | ⟨⟨p2, t2⟩, r2⟩
      · rfl
      · simp only [ChapterSegmenter.buildChapters]
        rcases r2 with _ | ⟨⟨p3, t3⟩, r3⟩
        · rfl
        · exact congrArg _ (buildChapters_aligned text r3 2 p3 t3)

/-- C4 counterexample to the claim as stated: the text `"zChapter 1. A"`
has exactly one heading match, at position 1 > 0; the claim demands one
chapter with ordinal 1, but segmentation returns no chapters at all (the
front-matter skip consumed the only match). -/
theorem segment_single_offset_match_empty :
    ChapterSegmenter.segment "zChapter 1. A".toList
      [(1, "Chapter 1. A".toList)] = [] ∧
    ([(1, "Chapter 1. A".toList)] : List (Nat × List Char)).length = 1 := by
  constructor
  · rfl
  · rfl

/-- C4 witness: instantiation of `segment_spec` at concrete texts, for a
match at position 0 and a match at position 1. -/
theorem segment_spec_witness :
    (ChapterSegmenter.segment "Chapter 1. A hello".toList
        [(0, "Chapter 1. A hello".toList)] =
      ChapterSegmenter.expectedChapters "Chapter 1. A hello".toList 1
        [(0, "Chapter 1. A hello".toList)] ∧
     (ChapterSegmenter.segment "Chapter 1. A hello".toList
        [(0, "Chapter 1. A hello".toList)]).map Prod.fst =
      List.range' 1 ([(0, "Chapter 1. A hello".toList)] :
        List (Nat × List Char)).length) ∧
    ((ChapterSegmenter.segment "zChapter 1. A".toList
        [(1, "Chapter 1. A".toList)]).length =
      ([] : List (Nat × List Char)).length) := by
  constructor
  · exact (segment_spec "Chapter 1. A hello".toList).1
      "Chapter 1. A hello".toList [] rfl
  · exact ((segment_spec "zChapter 1. A".toList).2 1
      "Chapter 1. A".toList [] rfl (by decide)).1

/-! ## C6: provenance inference -/

/-- Helper: `find_source_chapters` lists the ids of exactly the matching
chapters, in chunk order. -/
theorem find_source_chapters_eq_map_filter (event_desc : List Char)
    (chunk : List ChapterAnalysisResult) :
    find_source_chapters event_desc chunk =
      (chunk.filter fun chapter =>
        chapter.core_events.any
          (fun e => pyContains (pyLower e.description)
            (pyLower event_desc))).map ChapterAnalysisResult.chapter_id := by
  rw [find_source_chapters]
  induction chunk with
  | nil => rfl
  | cons ch rest ih =>
    simp only [List.filterMap_cons, List.filter_cons]
    rcases hm : ch.core_events.any
        (fun e => pyContains (pyLower e.description) (pyLower event_desc))
    · simpa [hm] using ih
    · simpa [hm] using ih

/-- C6 (corrected claim): an event lacking explicit provenance is attributed
to exactly those chapters of the chunk having some core event whose
description contains the event's description as a case-insensitive
substring, each such chapter contributing its id exactly once (so the
inferred list is duplicate-free whenever the chunk's chapter ids are); the
inferred provenance may be empty, so nonemptiness of `source_chapters` is
not an invariant. -/
theorem find_source_chapters_spec (event_desc : List Char)
    (chunk : List ChapterAnalysisResult) :
    (∀ cid, cid ∈ find_source_chapters event_desc chunk ↔
      ∃ ch ∈ chunk, ch.chapter_id = cid ∧
        ch.core_events.any
          (fun e => pyContains (pyLower e.description)
            (pyLower event_desc)) = true) ∧
    ((chunk.map ChapterAnalysisResult.chapter_id).Nodup →
      (find_source_chapters event_desc chunk).Nodup) := by
  constructor
  · intro cid
    rw [find_source_chapters_eq_map_filter]
    simp only [List.mem_map, List.mem_filter]
    constructor
    · rintro ⟨ch, ⟨hch, hany⟩, rfl⟩
      exact ⟨ch, hch, rfl, hany⟩
    · rintro ⟨ch, hch, rfl, hany⟩
      exact ⟨ch, ⟨hch, hany⟩, rfl⟩
  · intro hnd
    rw [find_source_chapters_eq_map_filter]
    exact hnd.sublist ((List.filter_sublist chunk).map _)

/-- C6 witness: instantiation of `find_source_chapters_spec` on a chunk
whose single chapter mentions the event's description. -/
theorem find_source_chapters_spec_witness :
    (['0', '1'] ∈ find_source_chapters ['a']
      [⟨['0', '1'], [⟨['x', 'a', 'x'], none, none⟩]⟩] ↔
      ∃ ch ∈ [(⟨['0', '1'], [⟨['x', 'a', 'x'], none, none⟩]⟩ :
          ChapterAnalysisResult)], ch.chapter_id = ['0', '1'] ∧
        ch.core_events.any
          (fun e => pyContains (pyLower e.description)
            (pyLower ['a'])) = true) ∧
    (find_source_chapters ['a']
      [⟨['0', '1'], [⟨['x', 'a', 'x'], none, none⟩]⟩]).Nodup :=
  ⟨(find_source_chapters_spec ['a']
      [⟨['0', '1'], [⟨['x', 'a', 'x'], none, none⟩]⟩]).1 ['0', '1'],
   (find_source_chapters_spec ['a']
      [⟨['0', '1'], [⟨['x', 'a', 'x'], none, none⟩]⟩]).2 (by decide)⟩

/-- C6 counterexample to the claim as stated: an event whose description
matches no chapter of the chunk receives an empty inferred provenance, and
the resulting `EventUnit` enters the knowledge base with an empty
`source_chapters`, violating the claimed nonemptiness invariant. -/
theorem find_source_chapters_can_be_empty :
    find_source_chapters ['x', 'y', 'z']
      [⟨['0', '1'], [⟨['a', 'b', 'c'], none, none⟩]⟩] = [] ∧
    (rawToEventUnit [⟨['0', '1'], [⟨['a', 'b', 'c'], none, none⟩]⟩]
      ⟨['x', 'y', 'z'], none, 0⟩).source_chapters = [] ∧
    post_process_events
      [rawToEventUnit [⟨['0', '1'], [⟨['a', 'b', 'c'], none, none⟩]⟩]
        ⟨['x', 'y', 'z'], none, 0⟩] =
      [rawToEventUnit [⟨['0', '1'], [⟨['a', 'b', 'c'], none, none⟩]⟩]
        ⟨['x', 'y', 'z'], none, 0⟩] := by
  refine ⟨by decide, by decide, by decide⟩

/-! ## C7: response parsing with one bounded fallback -/

/-- Helper: a successful `find('{')` points at a `'{'`. -/
theorem firstBraceIdx_spec (s : List Char) (i : Nat)
    (h : firstBraceIdx s = some i) : i < s.length ∧ s[i]? = some '{' := by
  rw [firstBraceIdx, List.findIdx?_eq_some_iff_getElem] at h
  rcases h with ⟨hi, hp, _⟩
  refine ⟨hi, ?_⟩
  rw [List.getElem?_eq_getElem hi]
  exact congrArg some (eq_of_beq hp)

/-- Helper: a successful `rfind('}')` points at a `'}'`. -/
theorem lastBraceIdx_spec (s : List Char) (j : Nat)
    (h : lastBraceIdx s = some j) : j < s.length ∧ s[j]? = some '}' := by
  rw [lastBraceIdx] at h
  rcases Option.map_eq_some'.mp h with ⟨j', hj', rfl⟩
  rw [List.findIdx?_eq_some_iff_getElem] at hj'
  rcases hj' with ⟨hi, hp, _⟩
  rw [List.length_reverse] at hi
  have hlt : s.length - 1 - j' < s.length := by omega
  refine ⟨hlt, ?_⟩
  rw [List.getElem?_eq_getElem hlt]
  refine congrArg some ?_
  have hrv := List.getElem_reverse (l := s) (i := j')
    (by rw [List.length_reverse]; exact hi)
  exact hrv.symm.trans (eq_of_beq hp)

/-- Helper: the extracted brace span is either empty (when the last `'}'`
precedes the first `'{'`) or starts with `'{'` and ends with `'}'`. -/
theorem extractBraces_shape (s sub : List Char)
    (h : extractBraces s = some sub) :
    sub = [] ∨ (sub.head? = some '{' ∧ sub.getLast? = some '}') := by
  rw [extractBraces] at h
  rcases hf : firstBraceIdx s with _ | i
  · rw [hf] at h; exact absurd h (by simp)
  · rcases hl : lastBraceIdx s with _ | j
    · rw [hf, hl] at h; exact absurd h (by simp)
    · rw [hf, hl] at h
      have hsub : sub = (s.drop i).take (j + 1 - i) := by
        simp only [Option.some.injEq] at h
        rw [← h, pySlice]
      rcases firstBraceIdx_spec s i hf with ⟨hilt, hic⟩
      rcases lastBraceIdx_spec s j hl with ⟨hjlt, hjc⟩
      by_cases hij : j < i
      · left
        rw [hsub]
        have hz : j + 1 - i = 0 := by omega
        rw [hz, List.take_zero]
      · right
        push_neg at hij
        have hlen : sub.length = j + 1 - i := by
          rw [hsub, List.length_take, List.length_drop]
          omega
        constructor
        · rw [List.head?_eq_getElem?, hsub, List.getElem?_take,
            if_pos (by omega), List.getElem?_drop]
          simpa using hic
        · rw [List.getLast?_eq_getElem?, hlen, hsub]
          have h1 : j + 1 - i - 1 = j - i := by omega
          rw [h1, List.getElem?_take, if_pos (by omega),
            List.getElem?_drop]
          have h2 : i + (j - i) = j := by omega
          rw [h2]
          exact hjc

/-- Helper: a nonempty span starting with `'{'` and ending with `'}'` is its
own brace extraction, so the retry inside `parse_response` re-extracts the
same span. -/
theorem extractBraces_fixpoint (sub : List Char)
    (hh : sub.head? = some '{') (hl : sub.getLast? = some '}') :
    extractBraces sub = some sub := by
  rcases sub with _ | ⟨c, t⟩
  · exact absurd hh (by simp)
  · have hc : c = '{' := by simpa using hh
    subst hc
    have hrev : ('{' :: t).reverse.head? = some '}' := by
      rw [List.head?_reverse]
      exact hl
    have hfirst : firstBraceIdx ('{' :: t) = some 0 := by
      rw [firstBraceIdx, List.findIdx?_cons]
      simp
    have hlast : lastBraceIdx ('{' :: t) = some (('{' :: t).length - 1) := by
      rcases hr : ('{' :: t).reverse with _ | ⟨d, r⟩
      · exact absurd (hr ▸ hrev) (by simp)
      · have hd : d = '}' := by
          rw [hr] at hrev
          simpa using hrev
        subst hd
        rw [lastBraceIdx, hr, List.findIdx?_cons]
        simp
    rw [extractBraces, hfirst, hlast]
    show some (pySlice ('{' :: t) 0 (('{' :: t).length - 1 + 1)) =
      some ('{' :: t)
    refine congrArg some ?_
    rw [pySlice, List.drop_zero]
    have hlen : ('{' :: t).length - 1 + 1 - 0 = ('{' :: t).length := by
      simp
    rw [hlen, List.take_length]

/-- Helper: once the direct parse of a self-extracting span fails, every
recursive retry either hits the recursion limit (an error the caller
catches) or produces the empty event list, whatever fuel remains. -/
theorem parse_response_fix (load : List Char → LoadOutcome)
    (chunk : List ChapterAnalysisResult) (sub : List Char)
    (hl : load sub = .decodeErr) (hfix : extractBraces sub = some sub) :
    ∀ fuel, parse_response load chunk fuel sub = .error () ∨
      parse_response load chunk fuel sub = .ok [] := by
  intro fuel
  induction fuel with
  | zero => exact Or.inl rfl
  | succ n ih =>
    right
    simp only [parse_response, hl, hfix]
    rcases ih with h | h
    · rw [h]
    · rw [h]

/-- Helper: one-level characterization of `parse_response` with fuel at
least 2: the direct parse result, else the single fallback on the
outermost-brace span, else the empty list; a conversion exception in the
direct branch escapes as an error. -/
theorem parse_response_spec (load : List Char → LoadOutcome)
    (chunk : List ChapterAnalysisResult) (response : List Char) (n : Nat) :
    parse_response load chunk (n + 1 + 1) response =
      match load response with
      | .ok events => .ok (events.map (rawToEventUnit chunk))
      | .exn => .error ()
      | .decodeErr =>
        .ok (match extractBraces response with
             | none => []
             | some sub =>
               match load sub with
               | .ok events => events.map (rawToEventUnit chunk)
               | _ => []) := by
  rw [parse_response]
  rcases hload : load response with events | _ | _
  · rfl
  · rcases hbr : extractBraces response with _ | sub
    · rfl
    · show (match parse_response load chunk (n + 1) sub with
        | .ok r => Except.ok r
        | .error _ => Except.ok []) =
        .ok (match load sub with
             | .ok events => events.map (rawToEventUnit chunk)
             | _ => [])
      rcases hsub : load sub with events' | _ | _
      · rw [parse_response, hsub]
      · rcases extractBraces_shape response sub hbr with hemp | ⟨hh, hl2⟩
        · subst hemp
          rw [parse_response, hsub]
          rfl
        · rcases parse_response_fix load chunk sub hsub
            (extractBraces_fixpoint sub hh hl2) (n + 1) with h | h
          · rw [h]
          · rw [h]
      · rw [parse_response, hsub]
  · rfl

/-- C7 (as claimed): for every decode behaviour, chunk, service outcome and
recursion budget of at least 2, extraction never propagates a failure — it
returns the decoded events on direct success, otherwise it makes exactly one
fallback attempt on the outermost-brace span of the response, and every
remaining failure (service error, decode failure of both attempts, or an
exception during record conversion) yields the empty event list for the
chunk. -/
theorem extract_events_spec (load : List Char → LoadOutcome)
    (chunk : List ChapterAnalysisResult) (generate : Except Unit (List Char))
    (fuel : Nat) (hfuel : 2 ≤ fuel) :
    extract_events load chunk generate fuel =
      match generate with
      | .error _ => []
      | .ok response =>
        match load response with
        | .ok events => events.map (rawToEventUnit chunk)
        | .exn => []
        | .decodeErr =>
          match extractBraces response with
          | none => []
          | some sub =>
            match load sub with
            | .ok events => events.map (rawToEventUnit chunk)
            | _ => [] := by
  obtain ⟨n, rfl⟩ : ∃ n, fuel = n + 1 + 1 := ⟨fuel - 2, by omega⟩
  rcases generate with e | response
  · rfl
  · show (match parse_response load chunk (n + 1 + 1) response with
      | .ok r => r
      | .error _ => []) =
      (match load response with
       | .ok events => events.map (rawToEventUnit chunk)
       | .exn => []
       | .decodeErr =>
         match extractBraces response with
         | none => []
         | some sub =>
           match load sub with
           | .ok events => events.map (rawToEventUnit chunk)
           | _ => [])
    rw [parse_response_spec]
    rcases hload : load response with events | _ | _
    · rfl
    · rfl
    · rfl

/-- C7 witness: instantiation of `extract_events_spec` with a decode
function that always fails, on a braceless response: the chunk degrades to
an empty event list. -/
theorem extract_events_spec_witness :
    extract_events (fun _ => LoadOutcome.decodeErr) [] (.ok ['x']) 2 = [] := by
  rw [extract_events_spec (fun _ => LoadOutcome.decodeErr) []
    (.ok ['x']) 2 (by omega)]
  rfl

/-! ## C1: event reconciliation -/

/-- Helper: first-occurrence deduplication commutes with removing every copy
of one key. -/
theorem firstOccur_filter_ne (k : List Char) :
    ∀ l : List (List Char),
      firstOccur (l.filter (fun x => x != k)) =
        (firstOccur l).filter (fun x => x != k) := by
  intro l
  induction l with
  | nil => rfl
  | cons x xs ih =>
    by_cases hx : (x != k) = true
    · rw [List.filter_cons, if_pos hx, firstOccur, ih, firstOccur,
        List.filter_cons, if_pos hx]
      congr 1
      rw [List.filter_filter, List.filter_filter]
      apply List.filter_congr
      intro a _
      exact Bool.and_comm _ _
    · have hxk : x = k := by
        simpa using hx
      subst hxk
      rw [List.filter_cons, if_neg hx, ih, firstOccur,
        List.filter_cons, if_neg hx, List.filter_filter]
      symm
      apply List.filter_congr
      intro a _
      exact Bool.and_self _

/-- Helper: a merge step (key already present) leaves the dict's key
sequence untouched. -/
theorem postStep_fst_update (acc : List (List Char × EventUnit))
    (e : EventUnit)
    (hmem : acc.any (fun p => p.1 == pyLower e.description) = true) :
    (postStep acc e).map Prod.fst = acc.map Prod.fst := by
  rw [postStep]
  simp only [hmem, if_true, List.map_map]
  apply List.map_congr_left
  intro p _
  simp only [Function.comp_apply]
  split <;> rfl

/-- Helper: every entry of the dict built by the fold is stored under the
lowercased description of the event it holds. -/
theorem foldl_postStep_key_inv (events : List EventUnit) :
    ∀ acc : List (List Char × EventUnit),
      (∀ p ∈ acc, p.1 = pyLower p.2.description) →
      ∀ p ∈ events.foldl postStep acc, p.1 = pyLower p.2.description := by
  induction events with
  | nil => intro acc hacc p hp; exact hacc p hp
  | cons e es ih =>
    intro acc hacc
    rw [List.foldl_cons]
    refine ih (postStep acc e) ?_
    intro p hp
    rw [postStep] at hp
    by_cases hmem : acc.any (fun q => q.1 == pyLower e.description) = true
    · simp only [hmem, if_true, List.mem_map] at hp
      rcases hp with ⟨q, hq, rfl⟩
      by_cases hqk : (q.1 == pyLower e.description) = true
      · simpa [hqk] using hacc q hq
      · simpa [hqk] using hacc q hq
    · simp only [hmem, if_false, Bool.false_eq_true, List.mem_append,
        List.mem_singleton] at hp
      rcases hp with hp | rfl
      · exact hacc p hp
      · rfl

/-- Helper: `any` over the projected key list is `any` over the entries. -/
theorem any_map_fst (acc : List (List Char × EventUnit))
    (p : List Char → Bool) :
    (acc.map Prod.fst).any p = acc.any fun q => p q.1 := by
  induction acc with
  | nil => rfl
  | cons a l ih => simp [List.any_cons, ih]

/-- Helper: the key sequence of the dict built by the fold is the incoming
key sequence followed by the first occurrences of the new keys, in event
order. -/
theorem foldl_postStep_keys (events : List EventUnit) :
    ∀ acc : List (List Char × EventUnit),
      (events.foldl postStep acc).map Prod.fst =
        acc.map Prod.fst ++
          firstOccur ((events.map fun e => pyLower e.description).filter
            fun k => !((acc.map Prod.fst).any fun k2 => k2 == k)) := by
  induction events with
  | nil =>
    intro acc
    simp [firstOccur]
  | cons e es ih =>
    intro acc
    rw [List.foldl_cons, List.map_cons, List.filter_cons]
    by_cases hmem : (acc.any fun p => p.1 == pyLower e.description) = true
    · have hanyk : ((acc.map Prod.fst).any
          fun k2 => k2 == pyLower e.description) = true := by
        rw [any_map_fst]
        exact hmem
      rw [hanyk]
      simp only [Bool.not_true, Bool.false_eq_true, if_false]
      rw [ih (postStep acc e), postStep_fst_update acc e hmem]
    · have hanyk : ((acc.map Prod.fst).any
          fun k2 => k2 == pyLower e.description) = false := by
        rw [any_map_fst]
        exact eq_false_of_ne_true hmem
      rw [hanyk]
      simp only [Bool.not_false, if_true]
      rw [ih (postStep acc e)]
      have hstep : postStep acc e = acc ++ [(pyLower e.description, e)] := by
        rw [postStep]
        simp [hmem]
      rw [hstep, List.map_append]
      rw [firstOccur, List.append_assoc]
      refine congrArg (acc.map Prod.fst ++ ·) ?_
      refine congrArg (pyLower e.description :: ·) ?_
      have hpred : ∀ kx ∈ es.map fun e2 => pyLower e2.description,
          (!(((acc.map Prod.fst) ++
              [(pyLower e.description, e)].map Prod.fst).any
            fun k2 => k2 == kx)) =
          ((kx != pyLower e.description) &&
            !((acc.map Prod.fst).any fun k2 => k2 == kx)) := by
        intro kx _
        rw [List.map_singleton, List.any_append]
        by_cases hk : kx = pyLower e.description
        · subst hk
          simp
        · have h1 : (pyLower e.description == kx) = false := by
            simp [Ne.symm hk]
          have h2 : (kx == pyLower e.description) = false := by
            simp [hk]
          simp [h1, h2, bne, Bool.and_comm]
      rw [List.filter_congr hpred, ← List.filter_filter]
      exact firstOccur_filter_ne (pyLower e.description)
        ((es.map fun e2 => pyLower e2.description).filter
          fun k => !((acc.map Prod.fst).any fun k2 => k2 == k))

/-- C1 (as claimed): event reconciliation deduplicates by case-insensitive
exact match on `description`: two events whose descriptions differ only by
case merge into exactly one record that keeps every field of the first-seen
event except `source_chapters`, which becomes the set union of both inputs'
chapter sets; and for every input sequence the output keys are the
lowercased descriptions in first-occurrence insertion order. -/
theorem post_process_events_spec :
    (∀ e1 e2 : EventUnit, pyLower e1.description = pyLower e2.description →
      post_process_events [e1, e2] =
        [{ e1 with source_chapters :=
            pySetUnion e1.source_chapters e2.source_chapters }] ∧
      (pySetUnion e1.source_chapters e2.source_chapters).toFinset =
        e1.source_chapters.toFinset ∪ e2.source_chapters.toFinset) ∧
    (∀ events : List EventUnit,
      (post_process_events events).map (fun e => pyLower e.description) =
        firstOccur (events.map fun e => pyLower e.description)) := by
  constructor
  · intro e1 e2 h
    constructor
    · rw [post_process_events, List.foldl_cons, List.foldl_cons,
        List.foldl_nil]
      have hstep1 : postStep [] e1 = [(pyLower e1.description, e1)] := by
        rw [postStep]
        simp
      rw [hstep1, postStep]
      have hany : ([(pyLower e1.description, e1)].any
          fun p => p.1 == pyLower e2.description) = true := by
        simp [List.any_cons, h]
      rw [hany]
      simp only [if_true, List.map_cons, List.map_nil]
      have hif : ((pyLower e1.description == pyLower e2.description)) = true := by
        simp [h]
      simp [hif]
    · ext a
      simp [pySetUnion, List.mem_dedup]
  · intro events
    rw [post_process_events, List.map_map]
    have hinv := foldl_postStep_key_inv events [] (by simp)
    have hmap : (events.foldl postStep []).map
        ((fun e => pyLower e.description) ∘ Prod.snd) =
        (events.foldl postStep []).map Prod.fst := by
      apply List.map_congr_left
      intro p hp
      exact (hinv p hp).symm
    rw [hmap, foldl_postStep_keys events []]
    simp [List.filter_true]

/-- C1 witness: instantiation of `post_process_events_spec` on two events
whose descriptions differ only by case. -/
theorem post_process_events_spec_witness :
    post_process_events [⟨['A', 'b'], [['1']], 5⟩, ⟨['a', 'B'], [['2']], 9⟩] =
      [{ (⟨['A', 'b'], [['1']], 5⟩ : EventUnit) with
          source_chapters := (pySetUnion [['1']] [['2']]) }] ∧
    (pySetUnion [['1']] [['2']]).toFinset =
      ([['1']] : List (List Char)).toFinset ∪
        ([['2']] : List (List Char)).toFinset :=
  post_process_events_spec.1 ⟨['A', 'b'], [['1']], 5⟩ ⟨['a', 'B'], [['2']], 9⟩
    (by decide)

/-! ## C8: turning-point detection -/

/-- C8 (as claimed): a turning point is reported exactly for the interior
indices whose intensity strictly exceeds both neighbours and meets the
threshold, rendered with the 1-based position string, the event id and the
intensity; and on a three-event plateau (the middle intensity equal to
either neighbour) nothing is reported. -/
theorem detect_turning_points_spec :
    (∀ (thr : Int) (events : List (List Char × Int)) (tp : TurningPoint),
      tp ∈ detect_turning_points thr events ↔
        ∃ i : Nat, 1 ≤ i ∧ i + 1 < events.length ∧
          (events.map Prod.snd).getD i 0 >
            (events.map Prod.snd).getD (i - 1) 0 ∧
          (events.map Prod.snd).getD i 0 >
            (events.map Prod.snd).getD (i + 1) 0 ∧
          (events.map Prod.snd).getD i 0 ≥ thr ∧
          tp = ⟨posRender (i + 1) events.length, (events.getD i ([], 0)).1,
            (events.map Prod.snd).getD i 0⟩) ∧
    (∀ (thr : Int) (e1 e2 e3 : List Char × Int),
      e2.2 = e1.2 ∨ e2.2 = e3.2 →
      detect_turning_points thr [e1, e2, e3] = []) := by
  constructor
  · intro thr events tp
    simp only [detect_turning_points, List.mem_filterMap, List.mem_range'_1]
    constructor
    · rintro ⟨i, ⟨h1, h2⟩, hif⟩
      rw [List.length_map] at h2
      split at hif
      · rename_i hcond
        rcases hcond with ⟨hgt1, hgt2, hge⟩
        simp only [Option.some.injEq] at hif
        exact ⟨i, h1, by omega, hgt1, hgt2, hge, hif.symm⟩
      · exact absurd hif (by simp)
    · rintro ⟨i, h1, h2, hgt1, hgt2, hge, rfl⟩
      refine ⟨i, ⟨h1, ?_⟩, ?_⟩
      · rw [List.length_map]
        omega
      · rw [if_pos ⟨hgt1, hgt2, hge⟩]
  · intro thr e1 e2 e3 h
    rcases h with h | h
    · simp [detect_turning_points, List.range', h]
    · simp [detect_turning_points, List.range', h]

/-- C8 witness: instantiation of `detect_turning_points_spec` at the
spec's plateau test `[5, 5, 5]` with the default threshold 7: no turning
point is reported. -/
theorem detect_turning_points_spec_witness :
    detect_turning_points 7 [(['a'], 5), (['b'], 5), (['c'], 5)] = [] :=
  detect_turning_points_spec.2 7 (['a'], 5) (['b'], 5) (['c'], 5)
    (Or.inl rfl)
